import Mathlib

/-
  Verification of the TOTP core of the 2fa-cli repository (file totp.ts).

  The embedding models:
  - base32Decode, generateTOTP, getTimeRemaining, parseOtpAuthUrl: translated
    line by line from totp.ts;
  - the platform primitives the code calls (WebCrypto HMAC-SHA1, the WHATWG
    URL class, decodeURIComponent, parseInt): modelled from their documented
    behavior, restricted to the features totp.ts uses.

  Bytes are Nat values below 256; JS numbers that hold integers are Nat or
  Int with explicit floor divisions and remainders.  The wall clock read via
  Date.now inside generateTOTP and getTimeRemaining is exposed as an explicit
  atTime parameter measured in whole seconds since the Unix epoch.
-/

/-! ## SHA-1 and HMAC-SHA1 (model of the WebCrypto primitives used by totp.ts) -/

/-- Reduction modulo 2 to the 32, the word size of SHA-1 arithmetic. -/
def u32 (x : Nat) : Nat := x % 4294967296

/-- Left rotation of a 32-bit word by k bits. -/
def rotl (k x : Nat) : Nat := u32 ((x <<< k) ||| (x >>> (32 - k)))

/-- Big-endian byte list of length n for a natural number. -/
def beBytes : Nat → Nat → List Nat
  | 0, _ => []
  | n + 1, x => beBytes n (x / 256) ++ [x % 256]

/-- Split a byte list into 64-byte blocks; the fuel argument bounds recursion. -/
def chunks64Aux : Nat → List Nat → List (List Nat)
  | 0, _ => []
  | _ + 1, [] => []
  | fuel + 1, l => l.take 64 :: chunks64Aux fuel (l.drop 64)

/-- SHA-1 message padding: append 0x80, zero fill to 56 mod 64, then the
bit length as 8 big-endian bytes. -/
def sha1Pad (msg : List Nat) : List Nat :=
  msg ++ [128] ++ List.replicate ((55 + 64 - msg.length % 64) % 64) 0 ++
    beBytes 8 (8 * msg.length)

/-- Pack bytes into big-endian 32-bit words. -/
def toWords : List Nat → List Nat
  | b0 :: b1 :: b2 :: b3 :: rest =>
      ((b0 <<< 24) ||| (b1 <<< 16) ||| (b2 <<< 8) ||| b3) :: toWords rest
  | _ => []

/-- Message schedule expansion.  The working list keeps the newest word first,
so the words at distances 3, 8, 14 and 16 sit at indices 2, 7, 13 and 15; the
result is returned oldest first. -/
def extendWordsRev : Nat → List Nat → List Nat
  | 0, w => w.reverse
  | n + 1, w =>
      extendWordsRev n
        (rotl 1 (w.getD 2 0 ^^^ w.getD 7 0 ^^^ w.getD 13 0 ^^^ w.getD 15 0) :: w)

/-- One SHA-1 round: state (a, b, c, d, e) updated with round index i and
schedule word w. -/
def sha1Round (st : Nat × Nat × Nat × Nat × Nat) (iw : Nat × Nat) :
    Nat × Nat × Nat × Nat × Nat :=
  let (a, b, c, d, e) := st
  let (i, w) := iw
  let f :=
    if i < 20 then (b &&& c) ||| ((4294967295 ^^^ b) &&& d)
    else if i < 40 then b ^^^ c ^^^ d
    else if i < 60 then (b &&& c) ||| (b &&& d) ||| (c &&& d)
    else b ^^^ c ^^^ d
  let k :=
    if i < 20 then 1518500249
    else if i < 40 then 1859775393
    else if i < 60 then 2400959708
    else 3395469782
  (u32 (rotl 5 a + f + e + k + w), a, rotl 30 b, c, d)

/-- SHA-1 compression of one 64-byte block into the running state. -/
def processBlock (h : Nat × Nat × Nat × Nat × Nat) (block : List Nat) :
    Nat × Nat × Nat × Nat × Nat :=
  let w := extendWordsRev 64 (toWords block).reverse
  let (a, b, c, d, e) := ((List.range 80).zip w).foldl sha1Round h
  let (h0, h1, h2, h3, h4) := h
  (u32 (h0 + a), u32 (h1 + b), u32 (h2 + c), u32 (h3 + d), u32 (h4 + e))

/-- SHA-1 of a byte list, producing the 20-byte digest. -/
def sha1 (msg : List Nat) : List Nat :=
  let padded := sha1Pad msg
  let (h0, h1, h2, h3, h4) :=
    (chunks64Aux padded.length padded).foldl processBlock
      (1732584193, 4023233417, 2562383102, 271733878, 3285377520)
  beBytes 4 h0 ++ beBytes 4 h1 ++ beBytes 4 h2 ++ beBytes 4 h3 ++ beBytes 4 h4

/-- HMAC-SHA1 per RFC 2104: keys longer than the 64-byte block are hashed,
the key is zero padded to 64 bytes, and the digest is
sha1(opad ++ sha1(ipad ++ msg)). -/
def hmacSha1Bytes (key msg : List Nat) : List Nat :=
  let k0 := if 64 < key.length then sha1 key else key
  let kp := k0 ++ List.replicate (64 - k0.length) 0
  sha1 ((kp.map (fun b => b ^^^ 92)) ++ sha1 ((kp.map (fun b => b ^^^ 54)) ++ msg))

/-- Failure raised by a modelled platform primitive.  The only failure the
totp.ts pipeline can hit is the DataError that WebCrypto importKey raises
when the raw HMAC key material has length zero. -/
inductive JsError where
  | cryptoDataError
deriving DecidableEq

/-- Model of the hmacSha1 helper of totp.ts, which calls WebCrypto
importKey and sign.  Per the WebCrypto specification, importing raw HMAC key
material of length zero throws a DataError; any other input signs normally. -/
def hmacSha1 (key msg : List Nat) : Except JsError (List Nat) :=
  if key.length = 0 then .error .cryptoDataError else .ok (hmacSha1Bytes key msg)

/-! ## base32Decode (totp.ts lines 3 to 25) -/

/-- The RFC 4648 base32 alphabet used by totp.ts. -/
def base32Alphabet : List Char := "ABCDEFGHIJKLMNOPQRSTUVWXYZ234567".data

/-- Model of the JS whitespace class used by the regular expressions in
totp.ts (space, tab, line terminators, form and vertical feed, no-break
space, byte order mark).  Only ASCII whitespace occurs in the claims. -/
def jsWhitespace (c : Char) : Bool :=
  c = ' ' || c = '\t' || c = '\n' || c = '\r' ||
  c = Char.ofNat 11 || c = Char.ofNat 12 || c = Char.ofNat 160 ||
  c = Char.ofNat 8232 || c = Char.ofNat 8233 || c = Char.ofNat 65279

/-- Input cleanup of base32Decode: uppercase, strip the run of trailing
padding characters, then remove all whitespace, in the order of totp.ts. -/
def base32Clean (l : List Char) : List Char :=
  (((l.map Char.toUpper).reverse.dropWhile (fun c => c = '=')).reverse).filter
    (fun c => !jsWhitespace c)

/-- One iteration of the base32Decode loop over state (bits, value, output).
Characters outside the alphabet are skipped; a valid character contributes 5
bits and a byte is emitted once at least 8 bits are buffered.  The shifted
accumulator is reduced modulo 2 to the 32 as the JS shift operator does; only
the low 12 bits ever reach an emitted byte. -/
def base32Step (st : Nat × Nat × List Nat) (c : Char) : Nat × Nat × List Nat :=
  match base32Alphabet.findIdx? (fun x => x = c) with
  | none => st
  | some idx =>
    let (bits, value, out) := st
    let value2 := u32 (value <<< 5) ||| idx
    if 8 ≤ bits + 5 then
      (bits + 5 - 8, value2, out ++ [(value2 >>> (bits + 5 - 8)) &&& 255])
    else (bits + 5, value2, out)

/-- Model of base32Decode from totp.ts. -/
def base32Decode (s : String) : List Nat :=
  ((base32Clean s.data).foldl base32Step (0, 0, [])).2.2

/-- Test whether a character is a valid base32 symbol (found in the alphabet). -/
def isB32 (c : Char) : Bool := (base32Alphabet.findIdx? (fun x => x = c)).isSome

/-- Number of valid base32 symbols the decoder consumes from an input. -/
def base32ValidCount (s : String) : Nat := ((base32Clean s.data).filter isB32).length

/-! ## generateTOTP and getTimeRemaining (totp.ts lines 40 to 68) -/

/-- The time counter of generateTOTP: Math.floor of the seconds since epoch
divided by the period.  Math.floor on an exact quotient of integers is floor
division; the model covers nonzero periods (a zero period produces the
non-finite JS value Infinity, outside integer semantics). -/
def totpCounter (period atTime : Int) : Int := Int.fdiv atTime period

/-- The 8-byte big-endian counter buffer of generateTOTP.  The source loop
stores t masked to its low byte and floors t by 256 eight times; for an
integral t the JS mask (t AND 0xff after conversion to int32) is the
Euclidean remainder modulo 256 and Math.floor(t / 256) is floor division. -/
def timeBytesAux : Nat → Int → List Nat
  | 0, _ => []
  | n + 1, t => timeBytesAux n (Int.fdiv t 256) ++ [(Int.emod t 256).toNat]

/-- The complete 8-byte counter buffer. -/
def timeBytes (t : Int) : List Nat := timeBytesAux 8 t

/-- Dynamic truncation of generateTOTP: the offset is the low nibble of the
last digest byte; four bytes from the offset are combined big-endian with the
top bit of the first masked off.  Out-of-range JS indexing yields undefined,
which the bitwise operators coerce to 0, modelled by the default of getD. -/
def dynTruncAt (hmac : List Nat) (offset : Nat) : Nat :=
  ((hmac.getD offset 0 &&& 127) <<< 24) |||
  ((hmac.getD (offset + 1) 0 &&& 255) <<< 16) |||
  ((hmac.getD (offset + 2) 0 &&& 255) <<< 8) |||
  (hmac.getD (offset + 3) 0 &&& 255)

/-- Dynamic truncation proper: the combination is taken at the offset given
by the low nibble of the last digest byte. -/
def dynamicTruncate (hmac : List Nat) : Nat :=
  dynTruncAt hmac ((hmac.getD (hmac.length - 1) 0) &&& 15)

/-- Decimal digit characters of n accumulated most significant first; the
fuel argument bounds recursion and any fuel above the digit count is enough. -/
def decCharsCore : Nat → Nat → List Char → List Char
  | 0, _, acc => acc
  | fuel + 1, n, acc =>
      if n < 10 then Char.ofNat (48 + n % 10) :: acc
      else decCharsCore fuel (n / 10) (Char.ofNat (48 + n % 10) :: acc)

/-- Model of JS Number toString for a nonnegative integer: plain decimal. -/
def decRepr (n : Nat) : String := ⟨decCharsCore (n + 1) n []⟩

/-- Model of String padStart with a one-character pad string: left pad to the
target length, or return the string unchanged when already long enough. -/
def padStart (s : String) (target : Nat) (c : Char) : String :=
  if s.length < target then ⟨List.replicate (target - s.length) c ++ s.data⟩ else s

/-- Body of generateTOTP from the decoded key and computed counter onward:
HMAC the counter buffer, dynamically truncate, reduce modulo 10 to the
digits, and render left padded with the character 0. -/
def generateAtCounter (secret : String) (digits : Nat) (counter : Int) :
    Except JsError String :=
  match hmacSha1 (base32Decode secret) (timeBytes counter) with
  | .error e => .error e
  | .ok hmac =>
      .ok (padStart (decRepr (dynamicTruncate hmac % 10 ^ digits)) digits (Char.ofNat 48))

/-- Model of generateTOTP from totp.ts with the wall clock exposed as the
atTime parameter in whole seconds. -/
def generateTOTP (secret : String) (digits : Nat) (period atTime : Int) :
    Except JsError String :=
  generateAtCounter secret digits (totpCounter period atTime)

/-- Model of getTimeRemaining from totp.ts: the period minus the JS remainder
(truncated remainder) of the current whole seconds by the period. -/
def getTimeRemaining (period atTime : Int) : Int := period - Int.tmod atTime period

/-! ## The WHATWG URL model used by parseOtpAuthUrl (totp.ts lines 70 to 97)

The URL class is a platform primitive; the model below follows the WHATWG URL
standard restricted to what parseOtpAuthUrl reads (protocol, host, pathname,
search parameters) for non-special schemes such as otpauth.  Simplifications,
none of which a claim touches: dot segment normalization and the percent
encoding of the serialized path and query are omitted (the code immediately
percent decodes what it reads), non-ASCII input is carried as raw code
points, and IPv6 host brackets are rejected as forbidden host characters. -/

/-- Value of a hexadecimal digit character, case insensitive. -/
def hexVal (c : Char) : Option Nat :=
  if c.isDigit then some (c.toNat - 48)
  else if 'A' ≤ c && c ≤ 'F' then some (c.toNat - 55)
  else if 'a' ≤ c && c ≤ 'f' then some (c.toNat - 87)
  else none

/-- Natural number denoted by a list of decimal digit characters. -/
def natFromDigits (l : List Char) : Nat := l.foldl (fun a c => 10 * a + (c.toNat - 48)) 0

/-- Characters allowed in a URL scheme after the first: ASCII alphanumeric,
plus, minus and period. -/
def isSchemeChar (c : Char) : Bool := c.isAlpha || c.isDigit || c = '+' || c = '-' || c = '.'

/-- Split the input at the colon ending the scheme, accumulating the scheme
characters; fails when a non-scheme character or the end of input is reached
before a colon. -/
def schemeSplit : List Char → List Char → Option (List Char × List Char)
  | [], _ => none
  | c :: rest, acc =>
      if c = ':' then some (acc.reverse, rest)
      else if isSchemeChar c then schemeSplit rest (c :: acc)
      else none

/-- Forbidden host code points of the URL standard that can still occur after
authority delimiting, including the bracket characters (IPv6 literals are not
modelled). -/
def forbiddenHostChar (c : Char) : Bool :=
  c = Char.ofNat 0 || c = ' ' || c = '<' || c = '>' || c = '[' || c = ']' ||
  c = '^' || c = '|' || c = '\\'

/-- Parse the authority component of a non-special URL into the serialized
host (hostname plus an optional colon and decimal port).  Userinfo before the
last commercial at sign is dropped; the port must be decimal digits valued at
most 65535; credentials or a port with an empty hostname fail. -/
def parseAuthority (auth : List Char) : Option String :=
  let hostport := if auth.contains '@' then (auth.reverse.takeWhile (fun c => c ≠ '@')).reverse else auth
  let hostPart := hostport.takeWhile (fun c => c ≠ ':')
  if hostPart.any forbiddenHostChar then none
  else
    match hostport.dropWhile (fun c => c ≠ ':') with
    | [] => if auth.contains '@' && hostPart.isEmpty then none else some ⟨hostPart⟩
    | _ :: pd =>
        if pd.all Char.isDigit then
          if pd.isEmpty then
            if auth.contains '@' && hostPart.isEmpty then none else some ⟨hostPart⟩
          else if natFromDigits pd ≤ 65535 then
            if hostPart.isEmpty then none
            else some ⟨hostPart ++ ':' :: (decRepr (natFromDigits pd)).data⟩
          else none
        else none

/-- Components of a parsed URL as totp.ts reads them: protocol with its
trailing colon, serialized host, pathname, and the query string without the
question mark. -/
structure JsURL where
  protocol : String
  host : String
  pathname : String
  search : String
deriving DecidableEq

/-- Model of the URL constructor for non-special schemes: strip tabs and
newlines, trim leading and trailing controls and spaces, parse and lowercase
the scheme, then split authority, path, query and fragment. -/
def newURL (s : String) : Option JsURL :=
  let cleaned := ((s.data.filter (fun c => !(c = '\t' || c = '\n' || c = '\r'))).dropWhile
      (fun c => c.toNat ≤ 32)).reverse.dropWhile (fun c => c.toNat ≤ 32) |>.reverse
  match schemeSplit cleaned [] with
  | none => none
  | some (scheme, rest) =>
    match scheme with
    | [] => none
    | c0 :: _ =>
      if !c0.isAlpha then none
      else
        let proto : String := ⟨(scheme.map Char.toLower) ++ [':']⟩
        match rest with
        | '/' :: '/' :: rest2 =>
            let authority := rest2.takeWhile (fun c => c ≠ '/' && c ≠ '?' && c ≠ '#')
            let tail0 := rest2.dropWhile (fun c => c ≠ '/' && c ≠ '?' && c ≠ '#')
            match parseAuthority authority with
            | none => none
            | some host =>
                let pathChars := tail0.takeWhile (fun c => c ≠ '?' && c ≠ '#')
                let afterPath := tail0.dropWhile (fun c => c ≠ '?' && c ≠ '#')
                let query : List Char :=
                  match afterPath with
                  | '?' :: q => q.takeWhile (fun c => c ≠ '#')
                  | _ => []
                some ⟨proto, host, ⟨pathChars⟩, ⟨query⟩⟩
        | _ =>
            let pathChars := rest.takeWhile (fun c => c ≠ '?' && c ≠ '#')
            let afterPath := rest.dropWhile (fun c => c ≠ '?' && c ≠ '#')
            let query : List Char :=
              match afterPath with
              | '?' :: q => q.takeWhile (fun c => c ≠ '#')
              | _ => []
            some ⟨proto, "", ⟨pathChars⟩, ⟨query⟩⟩

/-- Model of decodeURIComponent: every percent sign must be followed by two
hexadecimal digits, otherwise the call throws (returns none here).  Decoded
bytes are carried as raw code points; the UTF-8 validation the real function
additionally performs on non-ASCII bytes is not modelled and no claim
touches it. -/
def decodeURIComponent : List Char → Option (List Char)
  | [] => some []
  | '%' :: rest =>
      match rest with
      | a :: b :: rest2 =>
          match hexVal a, hexVal b with
          | some x, some y =>
              match decodeURIComponent rest2 with
              | none => none
              | some d => some (Char.ofNat (16 * x + y) :: d)
          | _, _ => none
      | _ => none
  | c :: rest =>
      match decodeURIComponent rest with
      | none => none
      | some d => some (c :: d)

/-- Lenient percent decoding of the form-urlencoded query language: a percent
sign not followed by two hexadecimal digits stays literal. -/
def percentDecodeLenient : List Char → List Char
  | [] => []
  | '%' :: a :: b :: rest =>
      match hexVal a, hexVal b with
      | some x, some y => Char.ofNat (16 * x + y) :: percentDecodeLenient rest
      | _, _ => '%' :: percentDecodeLenient (a :: b :: rest)
  | c :: rest => c :: percentDecodeLenient rest

/-- Form-urlencoded value decoding: plus becomes space, then lenient percent
decoding. -/
def formDecode (l : List Char) : List Char :=
  percentDecodeLenient (l.map (fun c => if c = '+' then ' ' else c))

/-- Lookup in the parsed query pair list: empty pairs are skipped, each pair
splits at its first equals sign, and both sides are form decoded; the first
pair whose name matches wins, as URLSearchParams get does. -/
def lookupParam : List (List Char) → List Char → Option (List Char)
  | [], _ => none
  | p :: rest, nm =>
      if p.isEmpty then lookupParam rest nm
      else
        let key := formDecode (p.takeWhile (fun c => c ≠ '='))
        let value :=
          match p.dropWhile (fun c => c ≠ '=') with
          | _ :: v => formDecode v
          | [] => []
        if key = nm then some value else lookupParam rest nm

/-- Model of searchParams.get on the query string. -/
def getParam (query : List Char) (nm : List Char) : Option (List Char) :=
  lookupParam (query.splitOn '&') nm

/-- Model of JS parseInt with radix 10: trim whitespace, optional sign, then
the longest run of decimal digits; none models the NaN result when no digit
is found. -/
def parseIntDigits (l : List Char) : Option Nat :=
  let ds := l.takeWhile Char.isDigit
  if ds.isEmpty then none else some (natFromDigits ds)

/-- JS parseInt including sign handling; the Option result carries NaN as
none. -/
def jsParseInt (l : List Char) : Option Int :=
  match l.dropWhile jsWhitespace with
  | '-' :: rest => (parseIntDigits rest).map (fun n => -(n : Int))
  | '+' :: rest => (parseIntDigits rest).map (fun n => (n : Int))
  | t => (parseIntDigits t).map (fun n => (n : Int))

/-- Defaulting used by parseOtpAuthUrl for the digits and period parameters:
the JS expression get(..) or-else default is the default when the parameter
is null or the empty string. -/
def paramOr (o : Option (List Char)) (dflt : List Char) : List Char :=
  match o with
  | none => dflt
  | some [] => dflt
  | some v => v

/-- Result record of parseOtpAuthUrl.  The digits and period fields are JS
numbers that may be NaN when the query value parses to no integer; Option Int
carries NaN as none. -/
structure OtpAccount where
  issuer : String
  account : String
  secret : String
  digits : Option Int
  period : Option Int
deriving DecidableEq

/-- Model of parseOtpAuthUrl from totp.ts.  The try block catches both a URL
constructor failure and a decodeURIComponent failure, returning null; the
scheme must be otpauth, the host exactly totp, and the secret parameter
truthy (present and nonempty).  A colon in the decoded path label splits it
at the first colon: the part before becomes the issuer when the issuer
parameter is falsy, the join of the remaining parts the account. -/
def parseOtpAuthUrl (url : String) : Option OtpAccount :=
  match newURL url with
  | none => none
  | some u =>
    if u.protocol ≠ "otpauth:" then none
    else if u.host ≠ "totp" then none
    else
      match decodeURIComponent (u.pathname.data.drop 1) with
      | none => none
      | some path =>
        match getParam u.search.data "secret".data with
        | none => none
        | some secretV =>
          if secretV.isEmpty then none
          else
            let issuer0 := (getParam u.search.data "issuer".data).getD []
            let parts := path.splitOn ':'
            let issuer := if path.contains ':' then
                (if issuer0.isEmpty then parts.headD [] else issuer0)
              else issuer0
            let account := if path.contains ':' then List.intercalate [':'] (parts.drop 1) else path
            some ⟨⟨issuer⟩, ⟨account⟩, ⟨secretV⟩,
              jsParseInt (paramOr (getParam u.search.data "digits".data) ['6']),
              jsParseInt (paramOr (getParam u.search.data "period".data) ['3', '0'])⟩

/-- Failure condition of parseOtpAuthUrl as the amended claim states it: the
input does not parse as a URL, or the scheme is not otpauth, or the host is
not exactly totp, or URI-decoding the path label throws, or the secret query
parameter is absent or empty. -/
def rejectCondition (s : String) : Prop :=
  match newURL s with
  | none => True
  | some u =>
      ¬(u.protocol = "otpauth:" ∧ u.host = "totp" ∧
        (∃ p, decodeURIComponent (u.pathname.data.drop 1) = some p) ∧
        (∃ v, getParam u.search.data "secret".data = some v ∧ v ≠ []))

set_option maxRecDepth 10000

/-! ## Helper lemmas -/

/-- Invariant of the base32Decode loop: starting from a bit buffer below 8,
the number of emitted bytes grows to the floor of the total bit count over 8. -/
theorem base32_foldl_length (l : List Char) : ∀ (bits value : Nat) (out : List Nat),
    bits < 8 →
    ((l.foldl base32Step (bits, value, out)).2.2).length =
      out.length + (bits + 5 * (l.filter isB32).length) / 8 := by
  induction l with
  | nil =>
      intro bits value out hb
      simp [List.foldl, Nat.div_eq_of_lt hb]
  | cons c rest ih =>
      intro bits value out hb
      rw [List.foldl_cons]
      cases hf : base32Alphabet.findIdx? (fun x => x = c) with
      | none =>
          have hv : isB32 c = false := by simp [isB32, hf]
          rw [show base32Step (bits, value, out) c = (bits, value, out) from by
            simp [base32Step, hf]]
          rw [ih bits value out hb]
          simp [List.filter_cons, hv]
      | some idx =>
          have hv : isB32 c = true := by simp [isB32, hf]
          by_cases h8 : 8 ≤ bits + 5
          · rw [show base32Step (bits, value, out) c =
                (bits + 5 - 8, u32 (value <<< 5) ||| idx,
                  out ++ [((u32 (value <<< 5) ||| idx) >>> (bits + 5 - 8)) &&& 255]) from by
              simp [base32Step, hf, h8]]
            rw [ih _ _ _ (by omega)]
            simp only [List.filter_cons, hv, if_true, List.length_append, List.length_cons, List.length_nil]
            omega
          · rw [show base32Step (bits, value, out) c =
                (bits + 5, u32 (value <<< 5) ||| idx, out) from by
              simp [base32Step, hf, h8]]
            rw [ih _ _ _ (by omega)]
            simp only [List.filter_cons, hv, if_true, List.length_cons]
            omega

/-- Digit rendering produces at most k characters beyond the accumulator when
the value is below 10 to the k, as long as the fuel exceeds the value. -/
theorem decCharsCore_length_le : ∀ (fuel n : Nat) (acc : List Char) (k : Nat),
    n < fuel → 1 ≤ k → n < 10 ^ k →
    (decCharsCore fuel n acc).length ≤ k + acc.length := by
  intro fuel
  induction fuel with
  | zero => intro n acc k h; omega
  | succ f ih =>
      intro n acc k hn hk hp
      unfold decCharsCore
      by_cases h10 : n < 10
      · simp only [h10, if_true, List.length_cons]
        omega
      · simp only [h10, if_false]
        have hk2 : 2 ≤ k := by
          rcases Nat.lt_or_ge k 2 with h | h
          · interval_cases k
            omega
          · exact h
        have h1 : n / 10 < f := by
          have := Nat.div_lt_self (show 0 < n by omega) (show 1 < 10 by omega)
          omega
        have h2 : n / 10 < 10 ^ (k - 1) := by
          have hpow : 10 ^ k = 10 ^ (k - 1) * 10 := by
            conv_lhs => rw [show k = (k - 1) + 1 by omega]
            rw [pow_succ]
          exact Nat.div_lt_of_lt_mul (by omega)
        have := ih (n / 10) (Char.ofNat (48 + n % 10) :: acc) (k - 1) h1 (by omega) h2
        simp only [List.length_cons] at this
        omega

/-- Length bound for the decimal rendering of a value below 10 to the k. -/
theorem decRepr_length_le (n k : Nat) (hk : 1 ≤ k) (h : n < 10 ^ k) :
    (decRepr n).length ≤ k := by
  have h2 := decCharsCore_length_le (n + 1) n [] k (by omega) hk h
  have hEq : (decRepr n).length = (decCharsCore (n + 1) n []).length := rfl
  rw [hEq]
  simp only [List.length_nil, Nat.add_zero] at h2
  exact h2

/-- Length of padStart is the maximum of the target and the input length. -/
theorem padStart_length (s : String) (t : Nat) (c : Char) :
    (padStart s t c).length = max t s.length := by
  unfold padStart
  by_cases h : s.length < t
  · simp only [h, if_true]
    show (List.replicate (t - s.length) c ++ s.data).length = max t s.length
    rw [List.length_append, List.length_replicate]
    have hd : s.data.length = s.length := rfl
    rw [hd]
    omega
  · simp only [h, if_false]
    omega

/-- Reading any index of a byte list with default zero stays below 256 when
all entries do. -/
theorem getD_lt_256 : ∀ (l : List Nat) (i : Nat), (∀ b ∈ l, b < 256) →
    l.getD i 0 < 256 := by
  intro l
  induction l with
  | nil => intro i h; simp [List.getD]
  | cons a t ih =>
      intro i h
      cases i with
      | zero => simpa [List.getD] using h a (by simp)
      | succ j =>
          simp only [List.getD_cons_succ]
          exact ih j (fun b hb => h b (by simp [hb]))

/-- Truncated remainder of natural number casts is the cast of the Nat
remainder. -/
theorem tmod_natCast (m q : Nat) : Int.tmod (m : Int) (q : Int) = ((m % q : Nat) : Int) := rfl

/-- Bound for the truncated combination: the top bit of the first byte is
masked off, so the 31-bit bound holds at every offset. -/
theorem dynTruncAt_lt (hmac : List Nat) (offset : Nat) :
    dynTruncAt hmac offset < 2 ^ 31 := by
  have h1 : (hmac.getD offset 0 &&& 127) <<< 24 < 2 ^ 31 := by
    rw [Nat.shiftLeft_eq]
    calc (hmac.getD offset 0 &&& 127) * 2 ^ 24 ≤ 127 * 2 ^ 24 :=
          Nat.mul_le_mul_right _ Nat.and_le_right
      _ < 2 ^ 31 := by norm_num
  have h2 : (hmac.getD (offset + 1) 0 &&& 255) <<< 16 < 2 ^ 31 := by
    rw [Nat.shiftLeft_eq]
    calc (hmac.getD (offset + 1) 0 &&& 255) * 2 ^ 16 ≤ 255 * 2 ^ 16 :=
          Nat.mul_le_mul_right _ Nat.and_le_right
      _ < 2 ^ 31 := by norm_num
  have h3 : (hmac.getD (offset + 2) 0 &&& 255) <<< 8 < 2 ^ 31 := by
    rw [Nat.shiftLeft_eq]
    calc (hmac.getD (offset + 2) 0 &&& 255) * 2 ^ 8 ≤ 255 * 2 ^ 8 :=
          Nat.mul_le_mul_right _ Nat.and_le_right
      _ < 2 ^ 31 := by norm_num
  have h4 : hmac.getD (offset + 3) 0 &&& 255 < 2 ^ 31 :=
    lt_of_le_of_lt Nat.and_le_right (by norm_num)
  exact Nat.or_lt_two_pow (Nat.or_lt_two_pow (Nat.or_lt_two_pow h1 h2) h3) h4

/-! ## Claim theorems -/

/-- C2: base32Decode cleans its input (uppercase, strip trailing padding,
drop whitespace), skips characters outside the alphabet, accumulates 5 bits
per valid symbol emitting a byte whenever 8 are buffered, discards leftover
bits, and returns floor(5 * numValidSymbols / 8) bytes; MFRGG=== decodes to
the ASCII bytes of abc in any letter case. -/
theorem base32Decode_spec :
    (∀ s : String, (base32Decode s).length = 5 * base32ValidCount s / 8) ∧
    base32Decode "MFRGG===" = [97, 98, 99] ∧
    base32Decode "mfrgg===" = [97, 98, 99] ∧
    base32Decode "MfRgG===" = [97, 98, 99] := by
  refine ⟨fun s => ?_, by decide, by decide, by decide⟩
  have h := base32_foldl_length (base32Clean s.data) 0 0 [] (by omega)
  show ((base32Clean s.data).foldl base32Step (0, 0, [])).2.2.length =
    5 * ((base32Clean s.data).filter isB32).length / 8
  rw [h]
  simp

/-- C3 counterexample: on a secret that decodes to zero bytes, generateTOTP
does proceed to invoke HMAC over the empty key; the call fails with the
DataError of the crypto layer, not with a typed InvalidSecret result (no such
error value exists in the code). -/
theorem generateTOTP_emptyKey_cex :
    base32Decode "" = [] ∧
    hmacSha1 (base32Decode "") (timeBytes (totpCounter 30 59)) =
      Except.error JsError.cryptoDataError ∧
    generateTOTP "" 6 30 59 = Except.error JsError.cryptoDataError :=
  ⟨rfl, rfl, rfl⟩

/-- C3 amended: for every secret whose base32 decoding is empty, generateTOTP
invokes HMAC over the empty key and the crypto layer rejects the zero-length
key, so the call fails with the thrown DataError rather than a typed
InvalidSecret result. -/
theorem generateTOTP_emptyKey (secret : String) (digits : Nat) (period atTime : Int)
    (h : base32Decode secret = []) :
    generateTOTP secret digits period atTime = Except.error JsError.cryptoDataError := by
  unfold generateTOTP generateAtCounter
  rw [h]
  rfl

/-- C3 witness: a concrete all-padding secret decodes to zero bytes and the
generation call fails with the crypto DataError. -/
theorem generateTOTP_emptyKey_witness :
    generateTOTP "=====" 6 30 1111111109 = Except.error JsError.cryptoDataError :=
  generateTOTP_emptyKey "=====" 6 30 1111111109 (by decide)

/-- C4 counterexample: at the nonpositive period -1 generateTOTP does not
fail with any InvalidPeriod error; it succeeds and returns a code. -/
theorem generateTOTP_negPeriod_cex :
    generateTOTP "GEZDGNBVGY3TQOJQGEZDGNBVGY3TQOJQ" 6 (-1) 59 = Except.ok "095537" :=
  rfl

/-- C4 amended: generateTOTP performs no validation of the period.  For every
period (nonzero in this integer model) it computes the counter as the floor
of atTime divided by period, and its only possible failure is the crypto
DataError for an empty key; no InvalidPeriod error exists. -/
theorem generateTOTP_no_period_validation (secret : String) (digits : Nat)
    (period atTime : Int) (e : JsError)
    (h : generateTOTP secret digits period atTime = Except.error e) :
    e = JsError.cryptoDataError ∧ base32Decode secret = [] ∧
    generateTOTP secret digits period atTime =
      generateAtCounter secret digits (Int.fdiv atTime period) := by
  refine ⟨by cases e; rfl, ?_, rfl⟩
  unfold generateTOTP generateAtCounter hmacSha1 at h
  by_cases hk : (base32Decode secret).length = 0
  · exact List.length_eq_zero.mp hk
  · simp [hk] at h

/-- C4 witness: a concrete failing call with a negative period, showing the
failure is the empty-key DataError and the counter formula applies. -/
theorem generateTOTP_no_period_validation_witness :
    JsError.cryptoDataError = JsError.cryptoDataError ∧ base32Decode "" = [] ∧
    generateTOTP "" 6 (-5) 59 = generateAtCounter "" 6 (Int.fdiv 59 (-5)) :=
  generateTOTP_no_period_validation "" 6 (-5) 59 JsError.cryptoDataError rfl

/-- C8: every successful generateTOTP result with 6, 7 or 8 digits has length
exactly digits, is the zero left pad of the decimal rendering of a value
below 10 to the digits, and the numeric value 7123 renders at 6 digits as
007123. -/
theorem generateTOTP_ok_length (secret : String) (digits : Nat) (period atTime : Int)
    (res : String) (hd : digits = 6 ∨ digits = 7 ∨ digits = 8)
    (h : generateTOTP secret digits period atTime = Except.ok res) :
    res.length = digits ∧
    (∃ v : Nat, v < 10 ^ digits ∧ res = padStart (decRepr v) digits (Char.ofNat 48)) ∧
    padStart (decRepr 7123) 6 (Char.ofNat 48) = "007123" := by
  unfold generateTOTP generateAtCounter at h
  cases hm : hmacSha1 (base32Decode secret) (timeBytes (totpCounter period atTime)) with
  | error e => rw [hm] at h; simp at h
  | ok hmac =>
      rw [hm] at h
      simp only [Except.ok.injEq] at h
      subst h
      have hv : dynamicTruncate hmac % 10 ^ digits < 10 ^ digits :=
        Nat.mod_lt _ (pow_pos (by omega) digits)
      have hl : (decRepr (dynamicTruncate hmac % 10 ^ digits)).length ≤ digits :=
        decRepr_length_le _ digits (by rcases hd with rfl | rfl | rfl <;> omega) hv
      refine ⟨?_, ⟨_, hv, rfl⟩, by decide⟩
      rw [padStart_length]
      omega

/-- C10: in dynamic truncation the offset is at most 15, the last accessed
index offset + 3 is below the 20-byte digest length, the combined value is
below 2 to the 31, and reducing modulo 10 to the digits is in range for every
positive digits. -/
theorem dynamicTruncate_bounds (hmac : List Nat) (h20 : hmac.length = 20)
    (_hb : ∀ b ∈ hmac, b < 256) :
    (hmac.getD (hmac.length - 1) 0) &&& 15 ≤ 15 ∧
    ((hmac.getD (hmac.length - 1) 0) &&& 15) + 3 < hmac.length ∧
    dynamicTruncate hmac < 2 ^ 31 ∧
    ∀ digits : Nat, 0 < digits → dynamicTruncate hmac % 10 ^ digits < 10 ^ digits := by
  have hoff : (hmac.getD (hmac.length - 1) 0) &&& 15 ≤ 15 := Nat.and_le_right
  exact ⟨hoff, by omega, dynTruncAt_lt hmac _,
    fun d hd => Nat.mod_lt _ (pow_pos (by omega) d)⟩

/-- C10 witness: the offset and value bounds evaluated on a concrete 20-byte
digest. -/
theorem dynamicTruncate_bounds_witness :
    dynamicTruncate (List.range 20) < 2 ^ 31 ∧
    dynamicTruncate (List.range 20) % 10 ^ 6 < 10 ^ 6 :=
  ⟨(dynamicTruncate_bounds (List.range 20) (by decide) (by decide)).2.2.1,
   (dynamicTruncate_bounds (List.range 20) (by decide) (by decide)).2.2.2 6 (by decide)⟩

/-- C8 witness: a concrete successful 6-digit generation has length 6 and the
padded shape, including the 007123 rendering example. -/
theorem generateTOTP_ok_length_witness :
    ("670717" : String).length = 6 ∧
    (∃ v : Nat, v < 10 ^ 6 ∧ ("670717" : String) = padStart (decRepr v) 6 (Char.ofNat 48)) ∧
    padStart (decRepr 7123) 6 (Char.ofNat 48) = "007123" :=
  generateTOTP_ok_length "MFRGG===" 6 30 0 "670717" (Or.inl rfl) rfl

/-- C9: getTimeRemaining is the period minus the remainder of the current
whole seconds by the period; at period 30 it lies in the interval from 1 to
30, decreases by one each second away from a boundary, and resets to 30 at a
boundary. -/
theorem getTimeRemaining_spec (t : Int) (ht : 0 ≤ t) :
    (∀ p : Int, 0 < p → getTimeRemaining p t = p - t % p) ∧
    1 ≤ getTimeRemaining 30 t ∧ getTimeRemaining 30 t ≤ 30 ∧
    (getTimeRemaining 30 t ≠ 1 →
      getTimeRemaining 30 (t + 1) = getTimeRemaining 30 t - 1) ∧
    (getTimeRemaining 30 t = 1 → getTimeRemaining 30 (t + 1) = 30) := by
  obtain ⟨m, rfl⟩ := Int.eq_ofNat_of_zero_le ht
  have key : ∀ k : Nat, getTimeRemaining 30 (k : Int) = 30 - ((k % 30 : Nat) : Int) := by
    intro k
    unfold getTimeRemaining
    rw [show Int.tmod (k : Int) (30 : Int) = ((k % 30 : Nat) : Int) from rfl]
  have hcast : ((m : Int) + 1) = ((m + 1 : Nat) : Int) := by push_cast; ring
  refine ⟨?_, ?_, ?_, ?_, ?_⟩
  · intro p hp
    obtain ⟨q, rfl⟩ := Int.eq_ofNat_of_zero_le hp.le
    unfold getTimeRemaining
    rw [show Int.tmod (m : Int) (q : Int) = ((m % q : Nat) : Int) from rfl]
    omega
  · rw [key m]
    have := Nat.mod_lt m (show 0 < 30 by omega)
    omega
  · rw [key m]
    omega
  · rw [key m, hcast, key (m + 1)]
    omega
  · rw [key m, hcast, key (m + 1)]
    omega

/-- C9 witness: at second 59 of a 30-second period one second remains, equal
to the remainder formula, and at second 60 the countdown resets to 30. -/
theorem getTimeRemaining_spec_witness :
    getTimeRemaining 30 59 = 30 - 59 % 30 ∧ getTimeRemaining 30 60 = 30 :=
  ⟨(getTimeRemaining_spec 59 (by decide)).1 30 (by decide),
   (getTimeRemaining_spec 59 (by decide)).2.2.2.2 (by decide)⟩

/-- C1: generateTOTP reproduces the RFC 6238 SHA-1 test vectors for the key
with base32 encoding GEZDGNBVGY3TQOJQGEZDGNBVGY3TQOJQ at 8 digits and period
30, at the Unix times 59, 1111111109 and 1111111111. -/
theorem generateTOTP_rfc6238_vectors :
    generateTOTP "GEZDGNBVGY3TQOJQGEZDGNBVGY3TQOJQ" 8 30 59 = Except.ok "94287082" ∧
    generateTOTP "GEZDGNBVGY3TQOJQGEZDGNBVGY3TQOJQ" 8 30 1111111109 = Except.ok "07081804" ∧
    generateTOTP "GEZDGNBVGY3TQOJQGEZDGNBVGY3TQOJQ" 8 30 1111111111 = Except.ok "14050471" :=
  ⟨rfl, rfl, rfl⟩

/-- C5 counterexample: a URL whose secret parameter is present but empty is
rejected although the input is a URI with scheme otpauth, host totp and a
secret parameter; failure is therefore not exactly the four conditions of
the claim. -/
theorem parseOtpAuthUrl_emptySecret_cex :
    parseOtpAuthUrl "otpauth://totp/x?secret=" = none ∧
    (newURL "otpauth://totp/x?secret=").map JsURL.protocol = some "otpauth:" ∧
    (newURL "otpauth://totp/x?secret=").map JsURL.host = some "totp" ∧
    (newURL "otpauth://totp/x?secret=").map
      (fun u => getParam u.search.data "secret".data) = some (some []) :=
  ⟨rfl, rfl, rfl, rfl⟩

/-- C5 amended: parseOtpAuthUrl fails exactly when the input does not parse
as a URI, or the scheme is not otpauth, or the host is not exactly totp, or
URI-decoding the path label throws inside the guarded block, or the secret
parameter is absent or empty; the two cited inputs both fail. -/
theorem parseOtpAuthUrl_failure :
    (∀ s : String, parseOtpAuthUrl s = none ↔ rejectCondition s) ∧
    parseOtpAuthUrl "not-a-uri" = none ∧
    parseOtpAuthUrl "otpauth://hotp/x?secret=AB" = none := by
  refine ⟨fun s => ?_, by decide, by decide⟩
  unfold parseOtpAuthUrl rejectCondition
  cases hu : newURL s with
  | none => simp
  | some u =>
      by_cases h1 : u.protocol = "otpauth:"
      · by_cases h2 : u.host = "totp"
        · simp only [h1, h2, ne_eq, not_true_eq_false, if_false]
          cases hd : decodeURIComponent (u.pathname.data.drop 1) with
          | none => simp [hd]
          | some p =>
              cases hs : getParam u.search.data "secret".data with
              | none => simp [hs]
              | some v =>
                  by_cases hv : v.isEmpty
                  · simp only [hv, if_true]
                    have : v = [] := List.isEmpty_iff.mp hv
                    subst this
                    simp
                  · simp only [hv, if_false]
                    have hvne : v ≠ [] := fun h => hv (by simp [h])
                    simp [hvne]
        · simp [h1, h2]
      · simp [h1]

/-- C6 counterexample: a present but unparseable digits parameter does not
default to 6; the field is the NaN result of parseInt (none in this model). -/
theorem parseOtpAuthUrl_nanDigits_cex :
    parseOtpAuthUrl "otpauth://totp/x?secret=AB&digits=abc" =
      some ⟨"", "x", "AB", none, some 30⟩ ∧
    (OtpAccount.digits ⟨"", "x", "AB", none, some 30⟩ ≠ some 6) :=
  ⟨rfl, by decide⟩

/-- C6 amended: digits is parseInt of the digits parameter when that is
present and nonempty (NaN, modelled none, when no integer parses) and 6 only
when the parameter is absent or the empty string; likewise period with
default 30. -/
theorem parseOtpAuthUrl_digits_period (s : String) (u : JsURL) (a : OtpAccount)
    (hu : newURL s = some u) (ha : parseOtpAuthUrl s = some a) :
    a.digits = jsParseInt (paramOr (getParam u.search.data "digits".data) ['6']) ∧
    a.period = jsParseInt (paramOr (getParam u.search.data "period".data) ['3', '0']) ∧
    (getParam u.search.data "digits".data = none → a.digits = some 6) ∧
    (getParam u.search.data "period".data = none → a.period = some 30) := by
  unfold parseOtpAuthUrl at ha
  rw [hu] at ha
  by_cases h1 : u.protocol = "otpauth:"
  · by_cases h2 : u.host = "totp"
    · simp only [h1, h2, ne_eq, not_true_eq_false, if_false] at ha
      cases hd : decodeURIComponent (u.pathname.data.drop 1) with
      | none => rw [hd] at ha; simp at ha
      | some p =>
          rw [hd] at ha
          cases hs : getParam u.search.data "secret".data with
          | none => rw [hs] at ha; simp at ha
          | some v =>
              rw [hs] at ha
              by_cases hv : v.isEmpty
              · simp [hv] at ha
              · dsimp only at ha
                rw [if_neg hv] at ha
                obtain rfl := Option.some.inj ha
                refine ⟨rfl, rfl, ?_, ?_⟩
                · intro hnone
                  simp [hnone, paramOr]
                  decide
                · intro hnone
                  simp [hnone, paramOr]
                  decide
    · simp [h1, h2] at ha
  · simp [h1] at ha

/-- C6 witness: the cited example URL has no digits parameter and the digits
field evaluates through the defaulting path to 6. -/
theorem parseOtpAuthUrl_digits_period_witness :
    (some 6 : Option Int) =
      jsParseInt (paramOr (getParam ("secret=ABCDEFGH&issuer=GitHub".data) ("digits".data)) ['6']) :=
  (parseOtpAuthUrl_digits_period "otpauth://totp/GitHub:alice?secret=ABCDEFGH&issuer=GitHub"
    ⟨"otpauth:", "totp", "/GitHub:alice", "secret=ABCDEFGH&issuer=GitHub"⟩
    ⟨"GitHub", "alice", "ABCDEFGH", some 6, some 30⟩ rfl rfl).1

/-- C7 counterexample: with an issuer parameter that is present but empty,
the label part before the colon still becomes the issuer, so the label
issuer is not used only when the parameter is absent. -/
theorem parseOtpAuthUrl_issuer_cex :
    parseOtpAuthUrl "otpauth://totp/Git:alice?secret=AB&issuer=" =
      some ⟨"Git", "alice", "AB", some 6, some 30⟩ ∧
    (newURL "otpauth://totp/Git:alice?secret=AB&issuer=").map
      (fun u => getParam u.search.data "issuer".data) = some (some []) :=
  ⟨rfl, rfl⟩

/-- C7 amended: for an accepted URI whose decoded label contains a colon,
the part before the first colon becomes the issuer exactly when the issuer
parameter is absent or empty, the join of the remaining parts (further
colons preserved) becomes the account; a label without a colon is the whole
account with the issuer parameter (or empty) as issuer; the cited GitHub
example parses as stated. -/
theorem parseOtpAuthUrl_label (s : String) (u : JsURL) (a : OtpAccount) (path : List Char)
    (hu : newURL s = some u) (ha : parseOtpAuthUrl s = some a)
    (hp : decodeURIComponent (u.pathname.data.drop 1) = some path) :
    (path.contains ':' = true →
      a.account = ⟨List.intercalate [':'] ((path.splitOn ':').drop 1)⟩ ∧
      ((getParam u.search.data "issuer".data).getD [] = [] →
        a.issuer = ⟨(path.splitOn ':').headD []⟩) ∧
      (∀ v, getParam u.search.data "issuer".data = some v → v ≠ [] →
        a.issuer = ⟨v⟩)) ∧
    (path.contains ':' = false →
      a.account = ⟨path⟩ ∧
      a.issuer = ⟨(getParam u.search.data "issuer".data).getD []⟩) ∧
    parseOtpAuthUrl "otpauth://totp/GitHub:alice?secret=ABCDEFGH&issuer=GitHub" =
      some ⟨"GitHub", "alice", "ABCDEFGH", some 6, some 30⟩ := by
  unfold parseOtpAuthUrl at ha
  rw [hu] at ha
  by_cases h1 : u.protocol = "otpauth:"
  · by_cases h2 : u.host = "totp"
    · simp only [h1, h2, ne_eq, not_true_eq_false, if_false] at ha
      rw [hp] at ha
      cases hs : getParam u.search.data "secret".data with
      | none => rw [hs] at ha; simp at ha
      | some v =>
          rw [hs] at ha
          by_cases hv : v.isEmpty
          · simp [hv] at ha
          · dsimp only at ha
            rw [if_neg hv] at ha
            obtain rfl := Option.some.inj ha
            refine ⟨?_, ?_, by decide⟩
            · intro hc
              have hmem : ':' ∈ path := by simpa using hc
              refine ⟨by simp [hmem], ?_, ?_⟩
              · intro hiss
                simp [hmem, hiss]
              · intro w hw hwne
                simp [hmem, hw, hwne]
            · intro hc
              have hnot : ':' ∉ path := by simpa using hc
              exact ⟨by simp [hnot], by simp [hnot]⟩
    · simp [h1, h2] at ha
  · simp [h1] at ha

/-- C7 witness: on the GitHub example the account is the join of the label
parts after the first colon. -/
theorem parseOtpAuthUrl_label_witness :
    ("alice" : String) =
      ⟨List.intercalate [':'] ((("GitHub:alice".data).splitOn ':').drop 1)⟩ :=
  ((parseOtpAuthUrl_label "otpauth://totp/GitHub:alice?secret=ABCDEFGH&issuer=GitHub"
      ⟨"otpauth:", "totp", "/GitHub:alice", "secret=ABCDEFGH&issuer=GitHub"⟩
      ⟨"GitHub", "alice", "ABCDEFGH", some 6, some 30⟩ ("GitHub:alice".data)
      rfl rfl rfl).1 (by decide)).1
